import Mathlib

/-!
Shallow embedding of the matrix engine in `matrix.py` (sublime-matrix).

Matrices are nested lists of rationals: Python floats are modelled by `ℚ`;
every concrete input exercised below stays inside the dyadic range where
binary64 arithmetic is exact, so `ℚ` is a faithful model there.  Errors
surfaced through `displayError` are modelled as tagged values.
-/

namespace SublimeMatrix

/-- A matrix as the Python code holds it: a list of rows of numbers. -/
abbrev Mat := List (List ℚ)

/-- Reading `A[i][j]`; out-of-range reads (which raise in Python) default,
and every theorem only evaluates it in range. -/
def getE (A : Mat) (i j : Nat) : ℚ := (A.getD i []).getD j 0

/-- Python built-in `abs` on a number. -/
def pyAbs (q : ℚ) : ℚ := if q < 0 then -q else q

/-! ## The parser `parseMatrix`

Python string primitives are embedded over `List Char`. -/

/-- The whitespace characters Python `str.strip` / `str.split` treat as
separators (the ones that can occur in editor text). -/
def isSpaceChar (c : Char) : Bool :=
  c = ' ' || c = '\t' || c = '\n' || c = '\r' || c = '\x0b' || c = '\x0c'

/-- Python `str.strip()`: drop leading and trailing whitespace. -/
def pyStrip (cs : List Char) : List Char :=
  ((cs.dropWhile isSpaceChar).reverse.dropWhile isSpaceChar).reverse

/-- Extend the first piece of a split with one more leading character. -/
def consHead (c : Char) : List (List Char) → List (List Char)
  | [] => [[c]]
  | l :: ls => (c :: l) :: ls

/-- Python `s.split("\n")`: split at every newline, keeping empty pieces,
so the result always has one more piece than there are newlines. -/
def splitNewline : List Char → List (List Char)
  | [] => [[]]
  | c :: rest =>
    if c = '\n' then [] :: splitNewline rest
    else consHead c (splitNewline rest)

/-- One step of Python `str.split()` scanned from the right: whitespace
closes the token under construction, anything else extends it. -/
def splitWSStep (c : Char) (acc : List Char × List (List Char)) :
    List Char × List (List Char) :=
  if isSpaceChar c then
    if acc.1 = [] then acc else ([], acc.1 :: acc.2)
  else (c :: acc.1, acc.2)

/-- Python `str.split()` with no argument: whitespace-separated tokens,
never producing empty tokens. -/
def pySplitWS (cs : List Char) : List (List Char) :=
  let r := cs.foldr splitWSStep ([], [])
  if r.1 = [] then r.2 else r.1 :: r.2

/-- Digits to the number they denote in base 10. -/
def digitsToNat (ds : List Char) : Nat :=
  ds.foldl (fun n c => n * 10 + (c.toNat - 48)) 0

/-- Python built-in `float()` restricted to the plain decimal literals the
input grammar needs (optional sign, digits, optional fractional part);
exponent and special forms never occur in the claims' inputs. -/
def parseFloat (t : List Char) : Option ℚ :=
  let neg : Bool := match t with | '-' :: _ => true | _ => false
  let t1 : List Char := match t with
    | '-' :: r => r
    | '+' :: r => r
    | _ => t
  let intPart := t1.takeWhile Char.isDigit
  let rest := t1.dropWhile Char.isDigit
  let mag : Option ℚ :=
    match rest with
    | [] => if intPart = [] then none else some (digitsToNat intPart : ℚ)
    | '.' :: frac =>
      if frac.all Char.isDigit && (!intPart.isEmpty || !frac.isEmpty) then
        some ((digitsToNat intPart : ℚ) + (digitsToNat frac : ℚ) / (10 ^ frac.length : ℚ))
      else none
    | _ => none
  mag.map fun q => if neg then -q else q

/-- One retained line `j` of `parseMatrix`:
`[float(i) for i in j.strip().split()]`, `none` on a `ValueError`. -/
def parseLine (j : List Char) : Option (List ℚ) :=
  (pySplitWS (pyStrip j)).mapM parseFloat

/-- `parseMatrix` on the character list of the input: split the stripped
text on newlines, keep the lines that are not the empty string (note: the
filter is `i != ""`, with no per-line strip), and convert each kept line. -/
def parseMatrixL (s : List Char) : Option Mat :=
  ((splitNewline (pyStrip s)).filter (fun i => i ≠ [])).mapM parseLine

/-- `parseMatrix` from the source, at the `String` boundary. -/
def parseMatrix (s : String) : Option Mat :=
  parseMatrixL s.data

/-- Errors reported through `displayError`, tagged per the spec taxonomy. -/
inductive MatrixError
  | dimensionMismatch (x y : Nat)
  | notSquare
  | singular
deriving DecidableEq

/-- Outcome of an operation: a result matrix or an error. -/
inductive MatResult
  | ok (m : Mat)
  | err (e : MatrixError)
deriving DecidableEq

/-- `isValidMatrix` from the source: all rows must have the length of the
first row, and zero rows or zero columns are invalid.  (The Python
`isinstance` checks are vacuous here since entries are typed.)  Returns
`some (rows, cols)` in place of the Python tuple, `none` in place of `-1`. -/
def isValidMatrix (m : Mat) : Option (Nat × Nat) :=
  let rows := m.length
  let cols := (m.headD []).length
  if m.all (fun row => row.length == cols) then
    if rows == 0 || cols == 0 then none else some (rows, cols)
  else none

/-! ## The formatter `matrixToStr`

The numeric rendering of one entry (`str(round(el, 4))` or `str(int(el))`)
is binary64-decimal formatting; it is abstracted as a `render` parameter,
and the alignment contract is proved for every rendering function, which
covers the concrete one. -/

/-- `"\x7b: >w\x7d".format(tok)`: right-align `tok` in a field of width
`w` by padding with spaces on the left (no truncation when too long). -/
def padFmt (w : Nat) (tok : List Char) : List Char :=
  List.replicate (w - tok.length) ' ' ++ tok

/-- Python `max` over a list of naturals (the source only applies it to
nonempty lists, where this fold equals the true maximum). -/
def pyMaxNat (l : List Nat) : Nat := l.foldl max 0

/-- `stringArr`: every entry rendered to its token. -/
def renderGrid (render : ℚ → List Char) (m : Mat) : List (List (List Char)) :=
  m.map fun row => row.map render

/-- `colSize[0] -= 1` applied to the computed width list. -/
def decFirst : List Nat → List Nat
  | [] => []
  | c :: r => (c - 1) :: r

/-- The `colSize` list: for each column `i`, the maximum over the rows of
token length plus one, with the first entry then decremented. -/
def colSize (sa : List (List (List Char))) (rows cols : Nat) : List Nat :=
  decFirst <| (List.range cols).map fun i =>
    pyMaxNat ((List.range rows).map fun j => ((sa.getD j []).getD i []).length + 1)

/-- `matrixToStr`: build `stringArr`, compute the column widths, append
each padded token and a newline per row, and drop the final newline
(`s[:-1]`, embedded as dropping the last character). -/
def matrixToStr (render : ℚ → List Char) (m : Mat) : List Char :=
  let sa := renderGrid render m
  let cols := (m.headD []).length
  let cs := colSize sa m.length cols
  (sa.foldl
    (fun s row =>
      ((List.range cols).foldl (fun s j => s ++ padFmt (cs.getD j 0) (row.getD j [])) s)
        ++ ['\n'])
    []).dropLast

/-- Modelled from the spec wording of the Formatter contract: the width of
column `i` is the maximum rendered-token length in that column plus one,
except column 0 which gets plus zero. -/
def specColWidth (sa : List (List (List Char))) (rows i : Nat) : Nat :=
  pyMaxNat ((List.range rows).map fun j => ((sa.getD j []).getD i []).length)
    + (if i = 0 then 0 else 1)

/-- Joining lines with single newlines and no trailing newline. -/
def intercalateNL : List (List Char) → List Char
  | [] => []
  | [l] => l
  | l :: ls => l ++ '\n' :: intercalateNL ls

/-- Modelled from the spec wording of the Formatter contract: each row is
the concatenation of its tokens right-aligned to the column widths, and the
rows are newline-separated with no trailing newline. -/
def matrixToStrSpec (render : ℚ → List Char) (m : Mat) : List Char :=
  let sa := renderGrid render m
  let cols := (m.headD []).length
  intercalateNL <| sa.map fun row =>
    ((List.range cols).map fun j => padFmt (specColWidth sa m.length j) (row.getD j [])).flatten

/-! ## Arithmetic operations -/

/-- `add`: the two dimension checks in source order, each reporting the
pair of mismatched counts, then the elementwise sum built over
`range(dimA[0]) × range(dimA[1])`. -/
def add (A B : Mat) (dimA dimB : Nat × Nat) : MatResult :=
  if dimA.1 ≠ dimB.1 then .err (.dimensionMismatch dimA.1 dimB.1)
  else if dimA.2 ≠ dimB.2 then .err (.dimensionMismatch dimA.2 dimB.2)
  else .ok ((List.range dimA.1).map fun i =>
    (List.range dimA.2).map fun j => getE A i j + getE B i j)

/-- Outcome of `scale`: on success, `out = true` means the result replaces
the second selection and the first selection is cleared (`out` is the
Python boolean used as a selection index); the error is the
`"At least one input must be a scalar"` message. -/
inductive ScaleResult
  | ok (result : Mat) (out : Bool)
  | invalidScalar
deriving DecidableEq

/-- `scale`: if `A` is 1×1 scale `B` by `A[0][0]`; otherwise the source
tests `dimB[0] == 1 and dimB[0] == 1` — the same dimension twice, embedded
exactly as written — and then scales `A` by `B[0][0]`; otherwise error.
The in-place `C[i][j] *= k` loops run over `range(len(C)) ×
range(len(C[0]))`. -/
def scale (A B : Mat) (dimA dimB : Nat × Nat) : ScaleResult :=
  if dimA.1 = 1 ∧ dimA.2 = 1 then
    .ok ((List.range B.length).map fun i =>
      (List.range (B.headD []).length).map fun j => getE B i j * getE A 0 0) true
  else if dimB.1 = 1 ∧ dimB.1 = 1 then
    .ok ((List.range A.length).map fun i =>
      (List.range (A.headD []).length).map fun j => getE A i j * getE B 0 0) false
  else .invalidScalar

/-- `transpose`: `C[i][j] = A[j][i]` over `range(dimA[1]) × range(dimA[0])`. -/
def transpose (A : Mat) (dimA : Nat × Nat) : Mat :=
  (List.range dimA.2).map fun i => (List.range dimA.1).map fun j => getE A j i

/-! ## The elimination engine `_rref` -/

/-- The pivot scan of `_rref`: starting from `pivot_row = 0`,
`pivot_val = -1`, for `i in range(h, rows)` update both whenever
`abs(A[i][k]) > pivot_val`; note the source stores the *signed* entry in
`pivot_val`, exactly as the Python does. -/
def pivotScan (A : Mat) (rows h k : Nat) : Nat × ℚ :=
  (List.range' h (rows - h)).foldl
    (fun pr i => if pyAbs (getE A i k) > pr.2 then (i, getE A i k) else pr)
    (0, -1)

/-- `A[h], A[pivot_row] = A[pivot_row], A[h]`: both right-hand sides are
read from the original list before either write. -/
def swapRows (A : Mat) (i j : Nat) : Mat :=
  (A.set i (A.getD j [])).set j (A.getD i [])

/-- The inner update of one non-pivot row `i`: `A[i][k] = 0`, then
`A[i][j] -= A[h][j]*f` for `j in range(k+1, cols)`; indices outside those
ranges are untouched. -/
def rowElim (rowI rowH : List ℚ) (k cols : Nat) (f : ℚ) : List ℚ :=
  rowI.mapIdx fun j x =>
    if j = k then 0
    else if k + 1 ≤ j ∧ j < cols then x - rowH.getD j 0 * f
    else x

/-- The `for i in range(rows)` loop clearing column `k` in every row other
than the pivot row `h` (row `h` itself is never written, so reading it from
the evolving matrix is sound). -/
def elimOthers (A : Mat) (rows cols h k : Nat) : Mat :=
  (List.range rows).foldl
    (fun B i =>
      if i = h then B
      else B.set i (rowElim (B.getD i []) (B.getD h []) k cols (getE B i k)))
    A

/-- The body of one successful pivot step of `_rref` at `(h, k)` with the
scanned pivot row `pr` and pivot value `pv`: swap rows `h` and `pr`, divide
row `h` elementwise by `pv`, then clear column `k` in the other rows. -/
def pivotStep (A : Mat) (rows cols h k pr : Nat) (pv : ℚ) : Mat :=
  let A1 := swapRows A h pr
  let A2 := A1.set h ((A1.getD h []).map (fun x => x / pv))
  elimOthers A2 rows cols h k

/-- The `while h < rows and k < cols` loop of `_rref`, driven by fuel.
Every iteration increments `k` by exactly one, so with fuel `cols - k` the
fuel reaches zero precisely when the guard `k < cols` fails; the fuel
therefore never cuts the loop short and the function computes exactly what
the Python loop does. -/
def rrefGo (rows cols : Nat) : Nat → Mat → Nat → Nat → Mat
  | 0, A, _, _ => A
  | fuel + 1, A, h, k =>
    if h < rows ∧ k < cols then
      if (pivotScan A rows h k).2 = 0 then rrefGo rows cols fuel A h (k + 1)
      else rrefGo rows cols fuel
        (pivotStep A rows cols h k (pivotScan A rows h k).1 (pivotScan A rows h k).2)
        (h + 1) (k + 1)
    else A

/-- `_rref(A, dim)` (named without the underscore): run the loop from
`h = 0, k = 0`; fuel `dim.2 = cols - 0` suffices as explained above. -/
def rref (A : Mat) (dim : Nat × Nat) : Mat :=
  rrefGo dim.1 dim.2 dim.2 A 0 0

/-! ## `inverse` -/

/-- The identity matrix `I` built in `inverse`. -/
def identityM (n : Nat) : Mat :=
  (List.range n).map fun i => (List.range n).map fun j => if i = j then 1 else 0

/-- The augmented matrix `B = [A[i] + I[i] for i in range(n)]`. -/
def augmented (A : Mat) (n : Nat) : Mat :=
  (List.range n).map fun i => A.getD i [] ++ (identityM n).getD i []

/-- `newI = [B[i][:n] ...]`: the left `n` columns after reduction. -/
def leftHalf (B : Mat) (n : Nat) : Mat :=
  (List.range n).map fun i => (B.getD i []).take n

/-- `A_inv = [B[i][n:] ...]`: the right `n` columns after reduction. -/
def rightHalf (B : Mat) (n : Nat) : Mat :=
  (List.range n).map fun i => (B.getD i []).drop n

/-- `inverse`: non-square input is rejected, otherwise `[A | I]` is reduced
over width `2n`; the element-by-element loop that compares the left half
against the identity (erroring at the first mismatch) is embedded as the
equivalent all-entries check. -/
def inverse (A : Mat) (dim : Nat × Nat) : MatResult :=
  if dim.1 ≠ dim.2 then .err .notSquare
  else
    let n := dim.1
    let B := rref (augmented A n) (n, n * 2)
    let newI := leftHalf B n
    if (List.range n).all (fun i => (List.range n).all fun j =>
        getE newI i j == if i = j then 1 else 0) then
      .ok (rightHalf B n)
    else .err .singular

/-! ## Helper lemmas -/

lemma getD_map_range {α : Type} (f : Nat → α) {n i : Nat} (d : α) (h : i < n) :
    ((List.range n).map f).getD i d = f i := by
  have h' : i < ((List.range n).map f).length := by simpa using h
  rw [List.getD_eq_getElem _ _ h']
  simp

lemma getE_build (f : Nat → Nat → ℚ) {r c i j : Nat} (hi : i < r) (hj : j < c) :
    getE ((List.range r).map fun i => (List.range c).map fun j => f i j) i j = f i j := by
  unfold getE
  rw [getD_map_range _ _ hi, getD_map_range _ _ hj]

lemma getE_identityM {n i j : Nat} (hi : i < n) (hj : j < n) :
    getE (identityM n) i j = if i = j then 1 else 0 :=
  getE_build _ hi hj

lemma isValidMatrix_some {m : Mat} {r c : Nat} (h : isValidMatrix m = some (r, c)) :
    m.length = r ∧ (∀ row ∈ m, row.length = c) ∧ 0 < r ∧ 0 < c := by
  simp only [isValidMatrix] at h
  split at h
  · split at h
    · exact absurd h (by simp)
    · next hz =>
      next hall =>
        injection h with h'
        injection h' with h1 h2
        subst h1; subst h2
        simp only [Bool.or_eq_true, beq_iff_eq, not_or] at hz
        refine ⟨rfl, ?_, ?_, ?_⟩
        · intro row hrow
          have := List.all_eq_true.mp hall row hrow
          simpa using this
        · omega
        · omega
  · exact absurd h (by simp)

lemma mat_ext {A B : Mat} {r c : Nat} (hA : A.length = r) (hB : B.length = r)
    (hAr : ∀ row ∈ A, row.length = c) (hBr : ∀ row ∈ B, row.length = c)
    (h : ∀ i < r, ∀ j < c, getE A i j = getE B i j) : A = B := by
  apply List.ext_getElem (by omega)
  intro i hiA hiB
  have hic : A[i].length = c := hAr _ (List.getElem_mem hiA)
  have hic' : B[i].length = c := hBr _ (List.getElem_mem hiB)
  apply List.ext_getElem (by omega)
  intro j hjA hjB
  have := h i (by omega) j (by omega)
  unfold getE at this
  rwa [List.getD_eq_getElem _ _ hiA, List.getD_eq_getElem _ _ hiB,
    List.getD_eq_getElem _ _ hjA, List.getD_eq_getElem _ _ hjB] at this

lemma valid_eq_build {A : Mat} {r c : Nat} (h : isValidMatrix A = some (r, c)) :
    (List.range r).map (fun i => (List.range c).map fun j => getE A i j) = A := by
  obtain ⟨hl, hr, _, _⟩ := isValidMatrix_some h
  apply mat_ext (by simp) hl _ hr
  · intro i hi j hj
    exact getE_build _ hi hj
  · intro row hrow
    simp only [List.mem_map, List.mem_range] at hrow
    obtain ⟨i, _, rfl⟩ := hrow
    simp

/-- Folding with an accumulated condition over the traversed list. -/
lemma foldl_preserve {α β : Type} (P : β → Prop) (step : β → α → β) :
    ∀ (l : List α) (b : β), (∀ b x, x ∈ l → P b → P (step b x)) → P b →
      P (l.foldl step b)
  | [], _, _, hb => hb
  | x :: xs, b, hstep, hb =>
    foldl_preserve P step xs (step b x)
      (fun c y hy => hstep c y (List.mem_cons_of_mem _ hy))
      (hstep b x (List.mem_cons_self _ _) hb)

/-- The shape invariant the elimination engine maintains. -/
def shapeOk (rows cols : Nat) (A : Mat) : Prop :=
  A.length = rows ∧ ∀ row ∈ A, row.length = cols

lemma shapeOk_getD_length {rows cols : Nat} {A : Mat} (h : shapeOk rows cols A)
    {i : Nat} (hi : i < rows) : (A.getD i []).length = cols := by
  have hi' : i < A.length := by rw [h.1]; exact hi
  rw [List.getD_eq_getElem _ _ hi']
  exact h.2 _ (List.getElem_mem hi')

lemma shapeOk_set {rows cols : Nat} {A : Mat} (h : shapeOk rows cols A)
    {row : List ℚ} (hrow : row.length = cols) (i : Nat) :
    shapeOk rows cols (A.set i row) := by
  refine ⟨by simpa using h.1, ?_⟩
  intro s hs
  rcases List.mem_or_eq_of_mem_set hs with hmem | rfl
  · exact h.2 _ hmem
  · exact hrow

lemma shapeOk_swapRows {rows cols : Nat} {A : Mat} (h : shapeOk rows cols A)
    {i j : Nat} (hi : i < rows) (hj : j < rows) :
    shapeOk rows cols (swapRows A i j) := by
  unfold swapRows
  exact shapeOk_set (shapeOk_set h (shapeOk_getD_length h hj) i)
    (shapeOk_getD_length h hi) j

lemma pivotScan_fst_lt {A : Mat} {rows h k : Nat} (hh : h < rows) :
    (pivotScan A rows h k).1 < rows := by
  unfold pivotScan
  apply foldl_preserve (fun pr : Nat × ℚ => pr.1 < rows)
  · intro b x hx hb
    split
    · rcases List.mem_range'.mp hx with ⟨i, hi, rfl⟩
      omega
    · exact hb
  · omega

lemma shapeOk_elimOthers {rows cols : Nat} {A : Mat} (hA : shapeOk rows cols A)
    (h k : Nat) : shapeOk rows cols (elimOthers A rows cols h k) := by
  unfold elimOthers
  apply foldl_preserve (shapeOk rows cols)
  · intro B i hi hB
    split
    · exact hB
    · apply shapeOk_set hB
      rw [rowElim, List.length_mapIdx]
      exact shapeOk_getD_length hB (List.mem_range.mp hi)
  · exact hA

lemma shapeOk_pivotStep {rows cols : Nat} {A : Mat} (hA : shapeOk rows cols A)
    {h k pr : Nat} (pv : ℚ) (hh : h < rows) (hpr : pr < rows) :
    shapeOk rows cols (pivotStep A rows cols h k pr pv) := by
  have h1 : shapeOk rows cols (swapRows A h pr) := shapeOk_swapRows hA hh hpr
  have h2 : shapeOk rows cols
      ((swapRows A h pr).set h (((swapRows A h pr).getD h []).map (fun x => x / pv))) := by
    apply shapeOk_set h1
    rw [List.length_map]
    exact shapeOk_getD_length h1 hh
  exact shapeOk_elimOthers h2 h k

lemma rrefGo_shape {rows cols : Nat} :
    ∀ (fuel : Nat) (A : Mat) (h k : Nat), shapeOk rows cols A →
      shapeOk rows cols (rrefGo rows cols fuel A h k)
  | 0, _, _, _, hA => hA
  | fuel + 1, A, h, k, hA => by
    rw [rrefGo]
    split
    · next hg =>
      split
      · exact rrefGo_shape fuel A h (k + 1) hA
      · exact rrefGo_shape fuel _ (h + 1) (k + 1)
          (shapeOk_pivotStep hA _ hg.1 (pivotScan_fst_lt hg.1))
    · exact hA

lemma rref_shape {rows cols : Nat} {A : Mat} (hA : shapeOk rows cols A) :
    shapeOk rows cols (rref A (rows, cols)) :=
  rrefGo_shape cols A 0 0 hA

/-! ### Parser helpers -/

lemma splitNewline_ne_nil : ∀ (cs : List Char), splitNewline cs ≠ []
  | [] => by simp [splitNewline]
  | c :: rest => by
    rw [splitNewline]
    split
    · simp
    · unfold consHead
      cases h : splitNewline rest <;> simp

lemma splitNewline_append (a b : List Char) :
    splitNewline (a ++ '\n' :: b) = splitNewline a ++ splitNewline b := by
  induction a with
  | nil => simp [splitNewline]
  | cons c cs ih =>
    rw [List.cons_append, splitNewline, splitNewline, ih]
    by_cases hc : c = '\n'
    · rw [if_pos hc, if_pos hc]
      simp
    · rw [if_neg hc, if_neg hc]
      obtain ⟨h0, t0, ht⟩ : ∃ h0 t0, splitNewline cs = h0 :: t0 := by
        cases h : splitNewline cs with
        | nil => exact absurd h (splitNewline_ne_nil cs)
        | cons x xs => exact ⟨x, xs, rfl⟩
      rw [ht]
      simp [consHead]

lemma dropWhile_eq_self_of_fixed {s : List Char} (h : pyStrip s = s) :
    s.dropWhile isSpaceChar = s := by
  have hsuf : s.dropWhile isSpaceChar <:+ s := List.dropWhile_suffix _
  apply hsuf.eq_of_length
  have l1 : (pyStrip s).length ≤ (s.dropWhile isSpaceChar).length := by
    unfold pyStrip
    simp only [List.length_reverse]
    have h2 :=
      (@List.dropWhile_suffix Char (s.dropWhile isSpaceChar).reverse isSpaceChar).length_le
    simpa using h2
  have l2 : (s.dropWhile isSpaceChar).length ≤ s.length := hsuf.length_le
  rw [h] at l1
  omega

lemma dropWhile_reverse_eq_self_of_fixed {s : List Char} (h : pyStrip s = s) :
    s.reverse.dropWhile isSpaceChar = s.reverse := by
  have h1 := dropWhile_eq_self_of_fixed h
  unfold pyStrip at h
  rw [h1] at h
  exact List.reverse_eq_iff.mp h

lemma head_not_space {c : Char} {t : List Char}
    (h : (c :: t).dropWhile isSpaceChar = c :: t) : isSpaceChar c = false := by
  by_contra hc
  have hc' : isSpaceChar c = true := by revert hc; cases isSpaceChar c <;> simp
  rw [List.dropWhile_cons, if_pos hc'] at h
  have hl := (@List.dropWhile_suffix Char t isSpaceChar).length_le
  rw [h] at hl
  simp at hl

lemma pyStrip_append_fixed {s1 s2 : List Char} (mid : List Char)
    (h1 : s1 ≠ []) (h2 : s2 ≠ []) (hs1 : pyStrip s1 = s1) (hs2 : pyStrip s2 = s2) :
    pyStrip (s1 ++ mid ++ s2) = s1 ++ mid ++ s2 := by
  obtain ⟨c1, t1, rfl⟩ : ∃ c1 t1, s1 = c1 :: t1 := by
    cases s1 with
    | nil => exact absurd rfl h1
    | cons x xs => exact ⟨x, xs, rfl⟩
  obtain ⟨c2, u2, hu⟩ : ∃ c2 u2, s2.reverse = c2 :: u2 := by
    cases h : s2.reverse with
    | nil => exact absurd (by simpa using congrArg List.reverse h) h2
    | cons x xs => exact ⟨x, xs, rfl⟩
  have hc1 : isSpaceChar c1 = false := head_not_space (dropWhile_eq_self_of_fixed hs1)
  have hc2 : isSpaceChar c2 = false := by
    have hr := dropWhile_reverse_eq_self_of_fixed hs2
    rw [hu] at hr
    exact head_not_space hr
  have e2 : (c1 :: t1 ++ mid ++ s2).reverse = c2 :: (u2 ++ (mid.reverse ++ (c1 :: t1).reverse)) := by
    rw [List.reverse_append, List.reverse_append, hu]
    simp
  unfold pyStrip
  rw [show c1 :: t1 ++ mid ++ s2 = c1 :: (t1 ++ (mid ++ s2)) by simp]
  rw [List.dropWhile_cons, if_neg (by simp [hc1])]
  rw [show c1 :: (t1 ++ (mid ++ s2)) = c1 :: t1 ++ mid ++ s2 by simp]
  rw [e2, List.dropWhile_cons, if_neg (by simp [hc2]), ← e2]
  simp

/-! ### Formatter helpers -/

lemma foldl_max_succ : ∀ (l : List Nat) (a : Nat),
    (l.map (fun x => x + 1)).foldl max (a + 1) = l.foldl max a + 1
  | [], _ => rfl
  | x :: xs, a => by
    simp only [List.map_cons, List.foldl_cons]
    rw [show max (a + 1) (x + 1) = max a x + 1 from Nat.succ_max_succ a x]
    exact foldl_max_succ xs (max a x)

lemma pyMaxNat_map_succ : ∀ {l : List Nat}, l ≠ [] →
    pyMaxNat (l.map (fun x => x + 1)) = pyMaxNat l + 1
  | [], h => absurd rfl h
  | x :: xs, _ => by
    unfold pyMaxNat
    simp only [List.map_cons, List.foldl_cons, Nat.zero_max]
    exact foldl_max_succ xs x

lemma foldl_append_flatten {α : Type} (f : α → List Char) :
    ∀ (L : List α) (s : List Char),
      L.foldl (fun acc x => acc ++ f x) s = s ++ (L.map f).flatten
  | [], s => by simp
  | x :: xs, s => by
    simp only [List.foldl_cons, List.map_cons, List.flatten_cons]
    rw [foldl_append_flatten f xs (s ++ f x)]
    simp

lemma flatten_nl_dropLast {α : Type} (f : α → List Char) : ∀ (L : List α), L ≠ [] →
    ((L.map fun x => f x ++ ['\n']).flatten).dropLast = intercalateNL (L.map f)
  | [], h => absurd rfl h
  | [x], _ => by simp [intercalateNL, List.dropLast_concat]
  | x :: y :: ls, _ => by
    have ih := flatten_nl_dropLast f (y :: ls) (by simp)
    simp only [List.map_cons, List.flatten_cons] at ih ⊢
    rw [List.dropLast_append_of_ne_nil _ (by simp), ih]
    simp [intercalateNL]

lemma foldl_rows_flatten (W : Nat → Nat) (cols : Nat) :
    ∀ (L : List (List (List Char))) (s : List Char),
      L.foldl (fun s row => ((List.range cols).foldl
        (fun s j => s ++ padFmt (W j) (row.getD j [])) s) ++ ['\n']) s
      = s ++ (L.map fun row =>
          ((List.range cols).map fun j => padFmt (W j) (row.getD j [])).flatten ++ ['\n']).flatten
  | [], s => by simp
  | x :: xs, s => by
    simp only [List.foldl_cons, List.map_cons, List.flatten_cons]
    rw [foldl_append_flatten (fun j => padFmt (W j) (x.getD j []))]
    rw [foldl_rows_flatten W cols xs]
    simp

lemma getD_decFirst : ∀ (l : List Nat) (j : Nat),
    (decFirst l).getD j 0 = if j = 0 then l.getD 0 0 - 1 else l.getD j 0
  | [], j => by cases j <;> simp [decFirst]
  | c :: r, j => by cases j <;> simp [decFirst]

lemma shapeOk_identityM (n : Nat) : shapeOk n n (identityM n) := by
  constructor
  · simp [identityM]
  · intro row hrow
    simp only [identityM, List.mem_map, List.mem_range] at hrow
    obtain ⟨i, _, rfl⟩ := hrow
    simp

lemma shapeOk_augmented {A : Mat} {n c : Nat} (h : shapeOk n c A) :
    shapeOk n (c + n) (augmented A n) := by
  constructor
  · simp [augmented]
  · intro row hrow
    simp only [augmented, List.mem_map, List.mem_range] at hrow
    obtain ⟨i, hi, rfl⟩ := hrow
    simp only [List.length_append]
    rw [shapeOk_getD_length h hi, shapeOk_getD_length (shapeOk_identityM n) hi]

lemma shapeOk_leftHalf {B : Mat} {n : Nat} (h : shapeOk n (n * 2) B) :
    shapeOk n n (leftHalf B n) := by
  constructor
  · simp [leftHalf]
  · intro row hrow
    simp only [leftHalf, List.mem_map, List.mem_range] at hrow
    obtain ⟨i, hi, rfl⟩ := hrow
    rw [List.length_take, shapeOk_getD_length h hi]
    omega

lemma all_check_iff_eq_identity {M : Mat} {n : Nat} (hM : shapeOk n n M) :
    ((List.range n).all (fun i => (List.range n).all fun j =>
      getE M i j == if i = j then 1 else 0) = true) ↔ M = identityM n := by
  rw [List.all_eq_true]
  constructor
  · intro hall
    apply mat_ext hM.1 (shapeOk_identityM n).1 hM.2 (shapeOk_identityM n).2
    intro i hi j hj
    have h1 := hall i (List.mem_range.mpr hi)
    rw [List.all_eq_true] at h1
    have h2 := h1 j (List.mem_range.mpr hj)
    rw [beq_iff_eq] at h2
    rw [h2, getE_identityM hi hj]
  · intro he
    subst he
    intro i hi
    rw [List.all_eq_true]
    intro j hj
    rw [List.mem_range] at hi hj
    rw [beq_iff_eq, getE_identityM hi hj]

lemma valid_one_one {M : Mat} (h : isValidMatrix M = some (1, 1)) :
    M = [[getE M 0 0]] := by
  obtain ⟨h1, h2, _, _⟩ := isValidMatrix_some h
  match M, h1 with
  | [row], _ =>
    have hr : row.length = 1 := h2 row (by simp)
    match row, hr with
    | [x], _ => rfl

/-! ## Claim theorems -/

/-- C1 (code bug): partial pivoting is not what the code does. In column 0
of the validated matrix [[-2],[0]] the maximum absolute value over rows
0..1 is 2 at row 0, yet the scan ends with pivot value 0 — the later zero
entry overwrites the stored signed value because abs(0) > -2 — so the
elimination step skips the column (as if its maximum were zero) and
returns the matrix unreduced; and on [[-5],[3]] the scan selects row 1
whose absolute value 3 is smaller than the absolute value 5 of row 0, so
the selected pivot row does not maximise the absolute value either. -/
theorem rref_pivot_selection_bug :
    isValidMatrix [[-2], [0]] = some (2, 1) ∧
    pivotScan [[-2], [0]] 2 0 0 = (1, 0) ∧
    pyAbs (getE [[-2], [0]] 0 0) = 2 ∧
    rref [[-2], [0]] (2, 1) = [[-2], [0]] ∧
    pivotScan [[-5], [3]] 2 0 0 = (1, 3) ∧
    pyAbs (getE [[-5], [3]] 1 0) < pyAbs (getE [[-5], [3]] 0 0) := by
  refine ⟨by decide, ?_, ?_, ?_, ?_, ?_⟩ <;>
    norm_num [rref, rrefGo, pivotScan, pivotStep, swapRows, elimOthers, rowElim, getE, pyAbs,
      List.range']

/-- C8 (code bug): the elimination is not idempotent. On the validated
matrix [[-2,1],[0,3]] the first pass skips column 0 (the pivot-scan slip
of C1), pivots on column 1 and returns [[0,1],[-2,0]]; running the engine
again on that output does pivot on column 0 and returns the identity, so
RREF(RREF(A)) differs from RREF(A). -/
theorem rref_not_idempotent :
    isValidMatrix [[-2, 1], [0, 3]] = some (2, 2) ∧
    rref [[-2, 1], [0, 3]] (2, 2) = [[0, 1], [-2, 0]] ∧
    rref (rref [[-2, 1], [0, 3]] (2, 2)) (2, 2) = [[1, 0], [0, 1]] ∧
    rref (rref [[-2, 1], [0, 3]] (2, 2)) (2, 2) ≠ rref [[-2, 1], [0, 3]] (2, 2) := by
  refine ⟨by decide, ?_, ?_, ?_⟩ <;>
    norm_num [rref, rrefGo, pivotScan, pivotStep, swapRows, elimOthers, rowElim, getE, pyAbs,
      List.range', List.range_succ, List.mapIdx, List.mapIdx.go, List.set]

/-- C2 (code bug): with A the validated 2×2 matrix [[1,2],[3,4]] and B the
validated 1×2 row vector [[2,3]], neither operand is 1×1, yet `scale` does
not report the scalar error: the second branch tests `dimB[0]` twice, so
the 1×2 row vector is classified as a scalar and A is multiplied through
by B[0][0] = 2 (and written back over the first selection). -/
theorem scale_misclassifies_row_vector :
    isValidMatrix [[1, 2], [3, 4]] = some (2, 2) ∧
    isValidMatrix [[2, 3]] = some (1, 2) ∧
    scale [[1, 2], [3, 4]] [[2, 3]] (2, 2) (1, 2) = .ok [[2, 4], [6, 8]] false ∧
    scale [[1, 2], [3, 4]] [[2, 3]] (2, 2) (1, 2) ≠ .invalidScalar := by
  refine ⟨by decide, by decide, ?_, ?_⟩
  · norm_num [scale, getE, List.range_succ]
  · norm_num [scale, getE, List.range_succ]
    decide

/-- C3 (counterexample): the parser does not discard a line that is empty
only after trimming. The interior line " " of "1 2\n \n3 4" is kept by the
filter `i != ""` and contributes an empty row, so the text does not parse
to the same grid as "1 2\n3 4". -/
theorem parseMatrix_whitespace_line_kept :
    parseMatrix "1 2\n \n3 4" = some [[1, 2], [], [3, 4]] ∧
    parseMatrix "1 2\n3 4" = some [[1, 2], [3, 4]] ∧
    parseMatrix "1 2\n \n3 4" ≠ parseMatrix "1 2\n3 4" :=
  ⟨by decide, by decide, by decide⟩

/-- C3 (amended): the parser discards exactly-empty lines: inserting one
more truly empty interior line (a doubled newline) between two stripped,
nonempty texts does not change the parse. -/
theorem parseMatrix_ignores_empty_interior_lines (s1 s2 : List Char)
    (h1 : s1 ≠ []) (h2 : s2 ≠ []) (hs1 : pyStrip s1 = s1) (hs2 : pyStrip s2 = s2) :
    parseMatrixL (s1 ++ '\n' :: '\n' :: s2) = parseMatrixL (s1 ++ '\n' :: s2) := by
  unfold parseMatrixL
  have e1 : pyStrip (s1 ++ '\n' :: '\n' :: s2) = s1 ++ '\n' :: '\n' :: s2 := by
    have := pyStrip_append_fixed ['\n', '\n'] h1 h2 hs1 hs2
    simpa using this
  have e2 : pyStrip (s1 ++ '\n' :: s2) = s1 ++ '\n' :: s2 := by
    have := pyStrip_append_fixed ['\n'] h1 h2 hs1 hs2
    simpa using this
  rw [e1, e2]
  rw [show s1 ++ '\n' :: '\n' :: s2 = s1 ++ '\n' :: ('\n' :: s2) from rfl]
  rw [splitNewline_append, splitNewline_append]
  rw [show ('\n' :: s2 : List Char) = [] ++ '\n' :: s2 from rfl, splitNewline_append]
  simp [List.filter_append, splitNewline]

/-- C3 (amended, witness): concrete instance of the amended statement. -/
theorem parseMatrix_ignores_empty_interior_lines_witness :
    parseMatrixL (['1', ' ', '2'] ++ '\n' :: '\n' :: ['3', ' ', '4']) =
      parseMatrixL (['1', ' ', '2'] ++ '\n' :: ['3', ' ', '4']) :=
  parseMatrix_ignores_empty_interior_lines ['1', ' ', '2'] ['3', ' ', '4']
    (by decide) (by decide) (by decide) (by decide)

/-- C9: the elimination engine preserves the shape of its input: the
reduced matrix still has `rows` rows and every row still has `cols`
entries. -/
theorem rref_preserves_shape (A : Mat) (rows cols : Nat)
    (h1 : A.length = rows) (h2 : ∀ row ∈ A, row.length = cols) :
    (rref A (rows, cols)).length = rows ∧
      ∀ row ∈ rref A (rows, cols), row.length = cols :=
  rref_shape ⟨h1, h2⟩

/-- C9 (witness): shape preservation at a concrete input. -/
theorem rref_preserves_shape_witness :
    (rref [[1, 2, 3], [4, 5, 6]] (2, 3)).length = 2 ∧
      ∀ row ∈ rref [[1, 2, 3], [4, 5, 6]] (2, 3), row.length = 3 :=
  rref_preserves_shape [[1, 2, 3], [4, 5, 6]] 2 3 (by decide) (by decide)

/-- C7: transpose is involutive on every validated matrix. -/
theorem transpose_involutive (A : Mat) (r c : Nat)
    (h : isValidMatrix A = some (r, c)) :
    transpose (transpose A (r, c)) (c, r) = A := by
  have key : ∀ i ∈ List.range r,
      ((List.range c).map fun j => getE (transpose A (r, c)) j i)
        = (List.range c).map fun j => getE A i j := by
    intro i hi
    apply List.map_congr_left
    intro j hj
    rw [List.mem_range] at hi hj
    exact getE_build (fun a b => getE A b a) hj hi
  calc transpose (transpose A (r, c)) (c, r)
      = (List.range r).map (fun i => (List.range c).map fun j => getE A i j) :=
        List.map_congr_left key
    _ = A := valid_eq_build h

/-- C7 (witness): double transpose at a concrete input. -/
theorem transpose_involutive_witness :
    transpose (transpose [[1, 2, 3], [4, 5, 6]] (2, 3)) (3, 2) = [[1, 2, 3], [4, 5, 6]] :=
  transpose_involutive [[1, 2, 3], [4, 5, 6]] 2 3 (by decide)

/-- C10: when both selections validate as 1×1 matrices the first branch of
`scale` fires, so the operation succeeds: the first operand supplies the
scalar, the second operand is multiplied by it, and the result goes to the
second selection (`out = true`) while the first is cleared. -/
theorem scale_both_scalar_first_wins (A B : Mat)
    (hA : isValidMatrix A = some (1, 1)) (hB : isValidMatrix B = some (1, 1)) :
    scale A B (1, 1) (1, 1) = .ok [[getE B 0 0 * getE A 0 0]] true := by
  obtain ⟨a, ha⟩ : ∃ a, A = [[a]] := ⟨getE A 0 0, valid_one_one hA⟩
  obtain ⟨b, hb⟩ : ∃ b, B = [[b]] := ⟨getE B 0 0, valid_one_one hB⟩
  subst ha
  subst hb
  rfl

/-- C4: `inverse` rejects every non-square validated input with the
not-square error; on a square validated n×n input it reduces the
augmented matrix [A | I] of width 2n and fails with the singular error
exactly when the left half of the reduced matrix is not elementwise equal
to the identity; in particular the inverse of [[1,0],[0,0]] fails as
singular. -/
theorem inverse_error_spec :
    (∀ (A : Mat) (r c : Nat), isValidMatrix A = some (r, c) → r ≠ c →
      inverse A (r, c) = .err .notSquare) ∧
    (∀ (A : Mat) (n : Nat), isValidMatrix A = some (n, n) →
      (inverse A (n, n) = .err .singular ↔
        leftHalf (rref (augmented A n) (n, n * 2)) n ≠ identityM n)) ∧
    inverse [[1, 0], [0, 0]] (2, 2) = .err .singular := by
  refine ⟨?_, ?_, ?_⟩
  · intro A r c _ hrc
    simp [inverse, hrc]
  · intro A n h
    obtain ⟨h1, h2, _, _⟩ := isValidMatrix_some h
    have haug : shapeOk n (n * 2) (augmented A n) := by
      have hplus := shapeOk_augmented ⟨h1, h2⟩
      rwa [show n + n = n * 2 by ring] at hplus
    have hL : shapeOk n n (leftHalf (rref (augmented A n) (n, n * 2)) n) :=
      shapeOk_leftHalf (rref_shape haug)
    have hiff := all_check_iff_eq_identity hL
    by_cases hc : leftHalf (rref (augmented A n) (n, n * 2)) n = identityM n
    · have hall := hiff.mpr hc
      simp [inverse, hall, hc]
      intro i hi j hj
      exact getE_identityM hi hj
    · have hall : ¬((List.range n).all (fun i => (List.range n).all fun j =>
          getE (leftHalf (rref (augmented A n) (n, n * 2)) n) i j ==
            if i = j then 1 else 0) = true) := fun ha => hc (hiff.mp ha)
      simp [inverse, hall, hc]
  · norm_num [inverse, rref, rrefGo, pivotScan, pivotStep, swapRows, elimOthers, rowElim,
      getE, pyAbs, List.range', List.range_succ, List.mapIdx, List.mapIdx.go, List.set,
      augmented, identityM, leftHalf, rightHalf]

/-- C4 (witness): the theorem applied at concrete inputs: a 3×2 input is
rejected as not square, and the singularity test for [[1,0],[0,0]]. -/
theorem inverse_error_spec_witness :
    inverse [[1, 2], [3, 4], [5, 6]] (3, 2) = .err .notSquare ∧
    (inverse [[1, 0], [0, 0]] (2, 2) = .err .singular ↔
      leftHalf (rref (augmented [[1, 0], [0, 0]] 2) (2, 2 * 2)) 2 ≠ identityM 2) :=
  ⟨inverse_error_spec.1 [[1, 2], [3, 4], [5, 6]] 3 2 (by decide) (by decide),
    inverse_error_spec.2.1 [[1, 0], [0, 0]] 2 (by decide)⟩

/-- C6: `add` fails with a dimension-mismatch error unless both dimension
components agree — reporting the mismatched row counts, else the
mismatched column counts — and on success produces the elementwise sum;
in particular adding a 2×2 and a 3×2 matrix reports the row counts
2 and 3. -/
theorem add_spec :
    (∀ (A B : Mat) (rA cA rB cB : Nat),
      isValidMatrix A = some (rA, cA) → isValidMatrix B = some (rB, cB) →
      (rA ≠ rB → add A B (rA, cA) (rB, cB) = .err (.dimensionMismatch rA rB)) ∧
      (rA = rB → cA ≠ cB → add A B (rA, cA) (rB, cB) = .err (.dimensionMismatch cA cB)) ∧
      (rA = rB → cA = cB → ∃ C, add A B (rA, cA) (rB, cB) = .ok C ∧
        C.length = rA ∧ (∀ row ∈ C, row.length = cA) ∧
        ∀ i < rA, ∀ j < cA, getE C i j = getE A i j + getE B i j)) ∧
    add [[1, 2], [3, 4]] [[1, 0], [0, 1], [2, 2]] (2, 2) (3, 2) =
      .err (.dimensionMismatch 2 3) := by
  constructor
  · intro A B rA cA rB cB _ _
    refine ⟨?_, ?_, ?_⟩
    · intro hr
      simp [add, hr]
    · intro hr hc
      simp [add, hr, hc]
    · intro hr hc
      refine ⟨(List.range rA).map fun i => (List.range cA).map fun j => getE A i j + getE B i j,
        by simp [add, hr, hc], by simp, ?_, ?_⟩
      · intro row hrow
        simp only [List.mem_map, List.mem_range] at hrow
        obtain ⟨i, _, rfl⟩ := hrow
        simp
      · intro i hi j hj
        exact getE_build _ hi hj
  · decide

/-- C6 (witness): the success case of the theorem at concrete conformant
inputs. -/
theorem add_spec_witness :
    ∃ C, add [[1, 2], [3, 4]] [[5, 6], [7, 8]] (2, 2) (2, 2) = .ok C ∧
      C.length = 2 ∧ (∀ row ∈ C, row.length = 2) ∧
      ∀ i < 2, ∀ j < 2,
        getE C i j = getE [[1, 2], [3, 4]] i j + getE [[5, 6], [7, 8]] i j :=
  (add_spec.1 [[1, 2], [3, 4]] [[5, 6], [7, 8]] 2 2 2 2 (by decide) (by decide)).2.2 rfl rfl

/-- C10 (witness): both operands 1×1 at a concrete input. -/
theorem scale_both_scalar_first_wins_witness :
    scale [[2]] [[3]] (1, 1) (1, 1) = .ok [[getE [[3]] 0 0 * getE [[2]] 0 0]] true :=
  scale_both_scalar_first_wins [[2]] [[3]] (by decide) (by decide)

/-- C5: on every validated matrix, and for every entry-rendering function,
the formatter produces exactly the spec-modelled text: each column
right-aligned to the uniform width max-token-length-plus-one — except the
first column, which uses max-token-length-plus-zero — with rows separated
by single newlines and no trailing newline. -/
theorem matrixToStr_alignment (render : ℚ → List Char) (m : Mat) (r c : Nat)
    (h : isValidMatrix m = some (r, c)) :
    matrixToStr render m = matrixToStrSpec render m := by
  obtain ⟨hlen, hrows, hr, hc⟩ := isValidMatrix_some h
  have hm : m ≠ [] := by
    intro e
    subst e
    simp only [List.length_nil] at hlen
    omega
  have hhead : (m.headD []).length = c := by
    cases m with
    | nil => exact absurd rfl hm
    | cons x xs => exact hrows x (List.mem_cons_self x xs)
  have hw : ∀ i : Nat,
      pyMaxNat ((List.range m.length).map fun j =>
        (((renderGrid render m).getD j []).getD i []).length + 1)
      = pyMaxNat ((List.range m.length).map fun j =>
          (((renderGrid render m).getD j []).getD i []).length) + 1 := by
    intro i
    rw [show ((List.range m.length).map fun j =>
          (((renderGrid render m).getD j []).getD i []).length + 1)
        = ((List.range m.length).map fun j =>
            (((renderGrid render m).getD j []).getD i []).length).map (fun x => x + 1) by
      rw [List.map_map]
      rfl]
    apply pyMaxNat_map_succ
    simp only [ne_eq, List.map_eq_nil_iff, List.range_eq_nil]
    omega
  have hA : ∀ j, j < c →
      (colSize (renderGrid render m) m.length (m.headD []).length).getD j 0
        = specColWidth (renderGrid render m) m.length j := by
    intro j hj
    rw [colSize, getD_decFirst]
    by_cases hj0 : j = 0
    · subst hj0
      rw [if_pos rfl, getD_map_range _ _ (by omega : 0 < (m.headD []).length), hw 0,
        specColWidth, if_pos rfl]
      omega
    · rw [if_neg hj0, getD_map_range _ _ (by omega : j < (m.headD []).length), hw j,
        specColWidth, if_neg hj0]
  have hsa : renderGrid render m ≠ [] := by
    simp only [renderGrid, ne_eq, List.map_eq_nil_iff]
    exact hm
  rw [matrixToStr, matrixToStrSpec]
  rw [foldl_rows_flatten
    (fun j => (colSize (renderGrid render m) m.length (m.headD []).length).getD j 0)
    ((m.headD []).length) (renderGrid render m) []]
  rw [List.nil_append]
  rw [flatten_nl_dropLast
    (fun row => ((List.range (m.headD []).length).map fun j =>
      padFmt ((colSize (renderGrid render m) m.length (m.headD []).length).getD j 0)
        (row.getD j [])).flatten)
    (renderGrid render m) hsa]
  apply congrArg intercalateNL
  apply List.map_congr_left
  intro row _
  apply congrArg List.flatten
  apply List.map_congr_left
  intro j hj
  rw [hA j (by rw [← hhead]; exact List.mem_range.mp hj)]

/-- C5 (witness): the formatter agrees with the spec-modelled renderer at a
concrete validated matrix and rendering function. -/
theorem matrixToStr_alignment_witness :
    matrixToStr (fun q => if q = 0 then ['0'] else ['1', '0']) [[1, 0], [0, 1]]
      = matrixToStrSpec (fun q => if q = 0 then ['0'] else ['1', '0']) [[1, 0], [0, 1]] :=
  matrixToStr_alignment (fun q => if q = 0 then ['0'] else ['1', '0']) [[1, 0], [0, 1]] 2 2
    (by decide)

end SublimeMatrix
